import Mathlib

/-!
# Verification of the task-scheduler scheduling core

A shallow embedding, in Lean 4, of the scheduling core of the CI task
scheduler (Go package `scheduling`): blamelist computation, candidate
filtering, candidate scoring (testedness increase with time decay), the
bot/candidate greedy matcher, and job cancellation.

Modelling conventions:

* Go `string` identifiers (commit hashes, task ids, job ids, repo and
  task-spec names) are modelled as `Nat`; only decidable equality of these
  identifiers matters to the scheduling logic.  Executor dimension strings
  (`"key:value"`) keep their `String` form.
* Go fields that use the empty string as an "unset" sentinel
  (`RetryOf`, `ForcedJobId`, `StealingFromId`) are modelled as `Option Nat`.
* Go `float64` arithmetic is modelled exactly over `ℚ`; timestamps and
  durations are rationals measured in hours.
* Fallible Go functions returning `(T, error)` are modelled as
  `Except String T`.
* The commit-graph recursion (`repograph.Commit.Recurse`) and the store and
  cache interfaces (`db` package) are external to the scheduling source;
  they are modelled from the spec where noted.
-/

namespace Scheduling

/-- Task status (statuses of a persisted task record, spec section 3). -/
inductive TaskStatus
  | pending
  | running
  | success
  | failure
  | mishap
deriving DecidableEq

/-- Modelled from the spec: the persisted Task record (`db.Task`, external to
the scheduling source).  Only the fields consulted by the scheduling core are
kept: id, revision, blamelist (`commits`), status, attempt counter, the
retried-task pointer and the forcing job pointer. -/
structure Task where
  id : Nat
  revision : Nat
  commits : List Nat
  status : TaskStatus
  attempt : Int
  retryOf : Option Nat
  forcedJobId : Option Nat
deriving DecidableEq

/-- `Task.Success()`: the task finished with status success. -/
def Task.success (t : Task) : Prop := t.status = .success

instance (t : Task) : Decidable t.success :=
  inferInstanceAs (Decidable (t.status = .success))

/-- A commit of the repository graph: hash, parent hashes, timestamp (hours).
Supplied by the external repository graph (spec section 3). -/
structure Commit where
  hash : Nat
  parents : List Nat
  timestamp : ℚ
deriving DecidableEq

/-- `repo.Get(hash)`: look a commit up by hash in the repository graph. -/
def repoGet (repo : List Commit) (h : Nat) : Option Commit :=
  repo.find? (fun c => c.hash == h)

-- Constants of the scheduling package.

/-- Manually-forced jobs have high priority. -/
def CANDIDATE_SCORE_FORCE_RUN : ℚ := 100

/-- Try jobs have high priority. -/
def CANDIDATE_SCORE_TRY_JOB : ℚ := 10

/-- Maximum number of commits allowed in a task blamelist before commit
history tracing stops. -/
def MAX_BLAMELIST_COMMITS : Nat := 500

/-- Resolve a list of commit hashes against the repository graph, in order
(the loop `for _, c := range stealFrom.Commits { ptr := repo.Get(c) ... }` of
`ComputeBlamelist`); a missing hash is the error `"No such commit"`. -/
def resolveCommits (repo : List Commit) : List Nat → Except String (List Commit)
  | [] => .ok []
  | h :: t =>
    match repoGet repo h with
    | none => .error "No such commit"
    | some c =>
      match resolveCommits repo t with
      | .error e => .error e
      | .ok cs => .ok (c :: cs)

/-- The mutable state of the `ComputeBlamelist` traversal closure: the
accumulated commit buffer (`commitsBuf`) and the task being stolen from
(`stealFrom`). -/
structure BlState where
  buf : List Commit
  stealFrom : Option Task
deriving DecidableEq

/-- Outcome of one invocation of the `ComputeBlamelist` traversal closure on a
single commit.  `fail` is a Go error return, `final` is the
`ERR_BLAMELIST_DONE` abort (the traversal stops and the state is the result),
`prune` is `return false, nil` (do not recurse into this commit's parents),
`deeper` is `return true, nil` (recurse into the parents). -/
inductive BlStep
  | fail (msg : String)
  | final (st : BlState)
  | prune (st : BlState)
  | deeper (st : BlState)

/-- Append the current commit to the buffer, then stop if the task spec is new
at this commit (the tail of the traversal closure: `commitsBuf = append(...)`,
the `newTasks[rs][taskName]` check, and `return true, nil`). -/
def blamelistPush (newTask : Nat → Bool) (st : BlState) (c : Commit) : BlStep :=
  let st := { st with buf := st.buf ++ [c] }
  if newTask c.hash then .prune st else .deeper st

/-- One invocation of the `ComputeBlamelist` traversal closure on commit `c`,
translated clause for clause from the Go closure: look up the previous task
covering `c`; cut off over-large blamelists to `[revision]`; stop when
scrolled past the stolen-from task's reach; on a first covered commit start
stealing, and when that covered commit is `revision` itself steal the entire
previous blamelist verbatim (retry); stop at a commit covered by a different
task; otherwise accumulate and recurse. -/
def blamelistStep (cache : Nat → Option Task) (repo : List Commit)
    (newTask : Nat → Bool) (revision : Commit) (c : Commit) (st : BlState) :
    BlStep :=
  let prev := cache c.hash
  -- If the blamelist is too large, just use a single commit.
  if st.buf.length > MAX_BLAMELIST_COMMITS then
    .final ⟨[revision], st.stealFrom⟩
  else
    match prev with
    | none =>
      -- Scrolled past the beginning of the stolen-from task's commits.
      if st.stealFrom.isSome then .prune st
      else blamelistPush newTask st c
    | some p =>
      if st.buf = [] then
        -- First covered commit: steal from `p`.
        if p.revision = revision.hash then
          -- Retry: steal all of the commits verbatim.
          match resolveCommits repo p.commits with
          | .error e => .fail e
          | .ok cs => .final ⟨cs, some p⟩
        else
          -- `stealFrom` was just set to `p`, so `prev.Id != stealFrom.Id`
          -- cannot hold; fall through to accumulation.
          blamelistPush newTask ⟨st.buf, some p⟩ c
      else
        match st.stealFrom with
        | none => .prune st
        | some sf =>
          -- A commit belonging to a different task ends the traversal branch.
          if p.id ≠ sf.id then .prune st
          else blamelistPush newTask st c

/-- Modelled from the spec: the commit-graph recursion
(`repograph.Commit.Recurse`, external to the scheduling source) walks
ancestors of the starting commit, first parent first, visiting each commit at
most once; a `false` callback result prunes the current branch, an error
aborts the whole walk.  Here it is phrased as a worklist loop carrying the
pending hashes, the visited set and the closure state; `fuel` bounds the
number of iterations (the graph is finite in Go) and the theorems below
quantify over it. -/
def blamelistLoop (cache : Nat → Option Task) (repo : List Commit)
    (newTask : Nat → Bool) (revision : Commit) :
    Nat → List Nat → List Nat → BlState →
    Except String (List Commit × Option Task)
  | 0, _, _, _ => .error "recursion fuel exhausted"
  | _ + 1, [], _, st => .ok (st.buf, st.stealFrom)
  | fuel + 1, h :: rest, visited, st =>
    if h ∈ visited then blamelistLoop cache repo newTask revision fuel rest visited st
    else
      match repoGet repo h with
      | none => .error "No such commit"
      | some c =>
        match blamelistStep cache repo newTask revision c st with
        | .fail e => .error e
        | .final st' => .ok (st'.buf, st'.stealFrom)
        | .prune st' =>
          blamelistLoop cache repo newTask revision fuel rest (h :: visited) st'
        | .deeper st' =>
          blamelistLoop cache repo newTask revision fuel (c.parents ++ rest) (h :: visited) st'

/-- Fuel that suffices to drain the worklist of any traversal of `repo`:
one pop for the start hash, at most one visit per commit and at most one pop
per recorded parent edge (re-pops of visited hashes are counted by the edge
that pushed them). -/
def blFuel (repo : List Commit) : Nat :=
  2 * (1 + repo.length + (repo.map (fun c => c.parents.length)).sum) + 2

/-- The tail of `ComputeBlamelist`: map the accumulated commit buffer to its
hashes (`rv := make([]string, 0, len(commitsBuf)); ... append(rv, c.Hash)`),
passing errors through. -/
def blamelistFinish :
    Except String (List Commit × Option Task) → Except String (List Nat × Option Task)
  | .error e => .error e
  | .ok (buf, stealFrom) => .ok (buf.map Commit.hash, stealFrom)

/-- `ComputeBlamelist(cache, repo, taskName, repoName, revision, ...)`:
compute the blamelist for a new task at `revHash`, returning the covered
commit hashes and the previous task (if any) that commits were stolen from.
`cache` is `GetTaskForCommit` with the task name and repo name fixed,
`newTask` is the `newTasks[rs][taskName]` lookup with them fixed.  The Go
function receives the `revision` commit object directly from its caller
(`repo.Get(c.Revision)`); here that lookup is folded in. -/
def ComputeBlamelist (cache : Nat → Option Task) (repo : List Commit)
    (newTask : Nat → Bool) (revHash : Nat) :
    Except String (List Nat × Option Task) :=
  match repoGet repo revHash with
  | none => .error "No such commit"
  | some revision =>
    blamelistFinish
      (blamelistLoop cache repo newTask revision (blFuel repo) [revHash] [] ⟨[], none⟩)

/-- `testedness(n)`: total testedness of a blamelist of `n` commits.
`-1` for negative `n` (should never happen), `0` for zero commits, `1` for a
single commit, and `1 + (n-1)/n` otherwise. -/
def testedness (n : Int) : ℚ :=
  if n < 0 then -1
  else if n = 0 then 0
  else if n = 1 then 1
  else 1 + ((n : ℚ) - 1) / (n : ℚ)

/-- `testednessIncrease(blamelistLength, stoleFromBlamelistLength)`: increase
in testedness obtained by running a task with the given blamelist length which
may have stolen commits from a previous task with the other length. -/
def testednessIncrease (blamelistLength stoleFromBlamelistLength : Int) : ℚ :=
  if blamelistLength ≤ 0 ∨ stoleFromBlamelistLength < 0 then -1
  else if stoleFromBlamelistLength = 0 then
    -- Previously-untested commits: the before state is -1 per commit.
    testedness blamelistLength - (-(blamelistLength : ℚ))
  else if blamelistLength = stoleFromBlamelistLength then 0
  else
    testedness blamelistLength +
      testedness (stoleFromBlamelistLength - blamelistLength) -
      testedness stoleFromBlamelistLength

/-- The reference testedness function of the claim list, written from the
spec's words: `T(0) = 0`, `T(1) = 1`, `T(N) = 1 + (N-1)/N` for `N ≥ 2`
(negative arguments are outside the reference's stated domain; the if-chain
below is an arbitrary total extension, never reached under the claim's
hypotheses). -/
def refT (n : Int) : ℚ :=
  if n = 0 then 0
  else if n = 1 then 1
  else 1 + ((n : ℚ) - 1) / (n : ℚ)

/-- The reference `testedness_increase` of the claim list, written from the
spec's words: `-1` if `n ≤ 0` or `m < 0`; `T(n) + n` if `m = 0`; `0` if
`n = m`; `T(n) + T(m-n) - T(m)` otherwise. -/
def testednessIncreaseRef (n m : Int) : ℚ :=
  if n ≤ 0 ∨ m < 0 then -1
  else if m = 0 then refT n + (n : ℚ)
  else if n = m then 0
  else refT n + refT (m - n) - refT m

/-- Modelled from the spec: a task specification's fields used by the
scheduling core — required executor dimensions (ordered `"key:value"`
strings) and the attempt cap. -/
structure TaskSpec where
  dimensions : List String
  maxAttempts : Int
deriving DecidableEq

/-- Modelled from the spec: `DEFAULT_TASK_SPEC_MAX_ATTEMPTS` of the external
`specs` package (the attempt cap used when a task spec leaves `max_attempts`
unset).  Its numeric value is immaterial to the claims below. -/
def DEFAULT_TASK_SPEC_MAX_ATTEMPTS : Int := 2

/-- Modelled from the spec: a task key
`(repo, revision, spec_name, forced_job_id)`. -/
structure TaskKey where
  repo : Nat
  revision : Nat
  name : Nat
  forcedJobId : Option Nat
deriving DecidableEq

/-- A task candidate under consideration during a tick.  `isTryJob` models
the `IsTryJob()` predicate of the key (derived in Go from patch fields, which
are not part of the scheduling source). -/
structure TaskCandidate where
  name : Nat
  repo : Nat
  revision : Nat
  forcedJobId : Option Nat
  isTryJob : Bool
  attempt : Int
  retryOf : Option Nat
  jobCreated : ℚ
  commits : List Nat
  stealingFromId : Option Nat
  parentTaskIds : List Nat
  isolatedHashes : List Nat
  score : ℚ
  spec : TaskSpec
deriving DecidableEq

/-- The candidate's task key. -/
def TaskCandidate.key (c : TaskCandidate) : TaskKey :=
  ⟨c.repo, c.revision, c.name, c.forcedJobId⟩

/-- Modelled from the spec: `IsForceRun()` — the candidate stems from a
manually-forced job (`forced_job_id` set). -/
def TaskCandidate.isForceRun (c : TaskCandidate) : Bool := c.forcedJobId.isSome

/-- `timeDecay24Hr`: linear time decay for the given elapsed duration (hours),
given the requested decay amount at 24 hours. -/
def timeDecay24Hr (decayAmt24Hr elapsed : ℚ) : ℚ :=
  max (1 - (1 - decayAmt24Hr) * (elapsed / 24)) 0

/-- The part of the scheduler state consulted by `processTaskCandidate`:
the repository map, the window membership test by timestamp (`TestTime`),
the newly-added-task-spec map, and the configured 24-hour decay amount.
The window and caches are external collaborators; they are modelled as
opaque test functions. -/
structure SchedState where
  repos : Nat → Option (List Commit)
  windowTestTime : Nat → ℚ → Bool
  newTasks : Nat → Nat → Nat → Bool
  timeDecayAmt24Hr : ℚ

/-- `timeDecayForCommit`: multiplier for a candidate score based on how long
ago the commit landed (shortcut `1` when the configured amount is `1`). -/
def timeDecayForCommit (s : SchedState) (now : ℚ) (commit : Commit) : ℚ :=
  if s.timeDecayAmt24Hr = 1 then 1
  else timeDecay24Hr s.timeDecayAmt24Hr (now - commit.timestamp)

/-- `processTaskCandidate`: compute the remaining information about the task
candidate — blamelist and score.  Try jobs and force runs get fixed base
scores plus job age; ordinary candidates are scored by testedness increase
(with retries deliberately treated as new: the stolen-from blamelist length
is not used when `RetryOf` is set) scaled by time decay.  A revision that has
scrolled out of the window gets an empty blamelist without tracing. -/
def processTaskCandidate (s : SchedState) (cache : Nat → Option Task)
    (c : TaskCandidate) (now : ℚ) : Except String TaskCandidate :=
  if c.isTryJob then
    .ok { c with score := CANDIDATE_SCORE_TRY_JOB + (now - c.jobCreated) }
  else
    match s.repos c.repo with
    | none => .error "No such repo"
    | some repo =>
      match repoGet repo c.revision with
      | none => .error "No such commit"
      | some revision =>
        let traced : Except String (List Nat × Option Task) :=
          if ¬ s.windowTestTime c.repo revision.timestamp then
            -- Commit scrolled out of the window: no blamelist.
            .ok ([], none)
          else
            ComputeBlamelist cache repo (fun h => s.newTasks c.repo h c.name) c.revision
        match traced with
        | .error e => .error e
        | .ok (commits, stealingFrom) =>
          let c := { c with
            commits := commits
            stealingFromId :=
              match stealingFrom with
              | some sf => some sf.id
              | none => c.stealingFromId }
          if c.isForceRun then
            .ok { c with score := CANDIDATE_SCORE_FORCE_RUN + (now - c.jobCreated) }
          else
            -- Treat retries as if they are new; don't use the stolen-from
            -- blamelist length.
            let stoleFromCommits : Int :=
              match stealingFrom with
              | some sf => if c.retryOf.isSome then 0 else sf.commits.length
              | none => 0
            let score := testednessIncrease c.commits.length stoleFromCommits
            let score := score * timeDecayForCommit s now revision
            .ok { c with score := score }

/-- One dimension reported by an executor bot: a key and its values
(`SwarmingRpcsStringListPair`). -/
structure BotDimension where
  key : String
  value : List String
deriving DecidableEq

/-- A free executor bot: its id and its dimensions.  Go bot ids are strings
ordered lexicographically; they are modelled as naturals with their order. -/
structure BotInfo where
  botId : Nat
  dimensions : List BotDimension
deriving DecidableEq

/-- The `"key:value"` dimension string (`fmt.Sprintf("%s:%s", key, val)`). -/
def mkDim (key val : String) : String := key ++ ":" ++ val

/-- The bots-by-dimension index: for each dimension string, the set of ids of
bots carrying it (`map[string]util.StringSet`, modelled as an association
list of duplicate-free id lists). -/
abbrev BotsByDim := List (String × List Nat)

/-- Set of bots registered under dimension `d` (empty when absent). -/
def dimLookup (m : BotsByDim) (d : String) : List Nat :=
  match m.find? (fun e => e.fst == d) with
  | some e => e.snd
  | none => []

/-- Register bot `id` under dimension `d` (`botsByDim[d][b.BotId] = true`). -/
def dimInsert (m : BotsByDim) (d : String) (id : Nat) : BotsByDim :=
  match m with
  | [] => [(d, [id])]
  | e :: rest =>
    if e.fst = d then
      (if id ∈ e.snd then e else (e.fst, e.snd ++ [id])) :: rest
    else e :: dimInsert rest d id

/-- Build the bots-by-dimension index from the free bot list. -/
def buildBotsByDim (bots : List BotInfo) : BotsByDim :=
  bots.foldl
    (fun m b =>
      b.dimensions.foldl
        (fun m dim =>
          dim.value.foldl (fun m val => dimInsert m (mkDim dim.key val) b.botId) m)
        m)
    []

/-- `util.StringSet.Union`, on duplicate-free lists. -/
def setUnion (a b : List Nat) : List Nat := a ++ b.filter (fun x => x ∉ a)

/-- `util.StringSet.Intersect`, on duplicate-free lists. -/
def setInter (a b : List Nat) : List Nat := a.filter (fun x => x ∈ b)

/-- The set of bots matching every dimension of the task: starting from the
empty set, the first dimension's bot set is unioned in and each further
dimension's set is intersected (`for i, d := range c.TaskSpec.Dimensions`). -/
def computeMatches (m : BotsByDim) (dims : List String) : List Nat :=
  (dims.foldl
    (fun acc d =>
      if acc.snd = 0 then (setUnion acc.fst (dimLookup m d), acc.snd + 1)
      else (setInter acc.fst (dimLookup m d), acc.snd + 1))
    (([] : List Nat), (0 : Nat))).fst

/-- Remove the chosen bot from every dimension's set, dropping dimensions
whose set becomes empty. -/
def removeBot (m : BotsByDim) (bot : Nat) : BotsByDim :=
  m.filterMap
    (fun e =>
      let pruned := e.snd.filter (fun id => id ≠ bot)
      if pruned = [] then none else some (e.fst, pruned))

/-- The least bot id of a non-empty match set (Go sorts the candidate bot ids
and takes the first). -/
def leastBot (l : List Nat) : Nat :=
  match l with
  | [] => 0
  | h :: t => t.foldl (fun a b => if b < a then b else a) h

/-- Insert a candidate into a score-descending list (used for the final
sort; the comparison of `taskCandidateSlice` is modelled from the spec:
ordered by score, descending). -/
def insertByScore (c : TaskCandidate) : List TaskCandidate → List TaskCandidate
  | [] => [c]
  | d :: t => if d.score < c.score then c :: d :: t else d :: insertByScore c t

/-- Sort candidates by score, descending. -/
def sortByScore (l : List TaskCandidate) : List TaskCandidate :=
  l.foldr insertByScore []

/-- The matching loop of `getCandidatesToSchedule`: walk the score-ordered
candidates, skip non-positive scores, intersect the bot sets of the
candidate's dimensions, and on a non-empty match choose the least bot id,
retire that bot, and emit the candidate; stop when no bots remain. -/
def matchBotsLoop (m : BotsByDim) (tasks rv : List TaskCandidate) :
    List TaskCandidate :=
  match tasks with
  | [] => rv
  | c :: rest =>
    if c.score ≤ 0 then matchBotsLoop m rest rv
    else
      let mtch := computeMatches m c.spec.dimensions
      if mtch = [] then matchBotsLoop m rest rv
      else
        let bot := leastBot mtch
        let m' := removeBot m bot
        let rv' := rv ++ [c]
        if m' = [] then rv' else matchBotsLoop m' rest rv'

/-- `getCandidatesToSchedule(bots, tasks)`: match free bots to the
score-sorted candidate queue and return the candidates to trigger, sorted by
score. -/
def getCandidatesToSchedule (bots : List BotInfo) (tasks : List TaskCandidate) :
    List TaskCandidate :=
  sortByScore (matchBotsLoop (buildBotsByDim bots) tasks [])

/-- Insert into an ascending list of naturals (`sort.Strings` of the parent
task ids, with ids modelled as naturals). -/
def insertAsc (x : Nat) : List Nat → List Nat
  | [] => [x]
  | y :: t => if x ≤ y then x :: y :: t else y :: insertAsc x t

/-- Sort a list of naturals ascending. -/
def sortAsc (l : List Nat) : List Nat := l.foldr insertAsc []

/-- The collaborators consulted by `filterTaskCandidates`: the blacklist
(`MatchRule`, returning the matching rule name or `""`), the window test by
commit hash (`TestCommitHash`), the task cache lookup by key
(`GetTasksByKey`, which returns the tasks sorted by creation time), and the
candidate's dependency resolution (`allDepsMet`, a method of the candidate
type outside the scheduling source; it returns the
dependency-task-id-to-isolated-hash pairs when all dependencies are met). -/
structure FilterEnv where
  matchRule : Nat → Nat → String
  windowTestCommitHash : Nat → Nat → Bool
  getTasksByKey : TaskKey → List Task
  allDepsMet : TaskCandidate → Option (List (Nat × Nat))

/-- The per-candidate body of `filterTaskCandidates`: reject blacklisted and
out-of-window candidates; consult only the last (most recently created)
previous task with the same key, rejecting when it is pending, running or
succeeded, or when its attempt count exhausts the spec's cap (folding the
legacy `attempt = 0` with `retry_of` set to attempt 1), otherwise recording
the next attempt number and the retried task's id; finally reject candidates
whose dependencies are unmet, attaching the parent ids (sorted) and isolated
hashes otherwise.  Returns the surviving, possibly updated candidate. -/
def filterCandidate (env : FilterEnv) (c : TaskCandidate) : Option TaskCandidate :=
  if env.matchRule c.name c.revision ≠ "" then none
  else if ¬ env.windowTestCommitHash c.repo c.revision then none
  else
    let prevTasks := env.getTasksByKey c.key
    let afterPrev : Option TaskCandidate :=
      match prevTasks.getLast? with
      | none => some c
      | some previous =>
        if previous.status = .pending ∨ previous.status = .running then none
        else if previous.success then none
        else
          let maxAttempts :=
            if c.spec.maxAttempts = 0 then DEFAULT_TASK_SPEC_MAX_ATTEMPTS
            else c.spec.maxAttempts
          let previousAttempt :=
            if previous.attempt = 0 ∧ previous.retryOf.isSome then 1
            else previous.attempt
          if previousAttempt ≥ maxAttempts - 1 then none
          else some { c with attempt := previousAttempt + 1, retryOf := some previous.id }
    match afterPrev with
    | none => none
    | some c =>
      match env.allDepsMet c with
      | none => none
      | some idsToHashes =>
        some { c with
          isolatedHashes := idsToHashes.map Prod.snd
          parentTaskIds := sortAsc (idsToHashes.map Prod.fst) }

/-- `filterTaskCandidates`: reduce the candidate set to the ones that might
actually run.  The Go function iterates a map of candidates and buckets the
survivors by repo and task-spec name; the iteration sequence is modelled as a
list and the survivors are returned flat, in order. -/
def filterTaskCandidates (env : FilterEnv) (cs : List TaskCandidate) :
    List TaskCandidate :=
  cs.filterMap (filterCandidate env)

/-- Job status (spec section 3). -/
inductive JobStatus
  | inProgress
  | success
  | failure
  | mishap
  | canceled
deriving DecidableEq

/-- Modelled from the spec: the Job record (`db.Job`, external to the
scheduling source) — id, status, and finish timestamp. -/
structure Job where
  id : Nat
  status : JobStatus
  finished : Option ℚ
deriving DecidableEq

/-- Modelled from the spec: `Job.Done()` — the job's status is terminal
(anything but in-progress). -/
def Job.done (j : Job) : Bool := j.status ≠ .inProgress

/-- The job store view used by `CancelJob` (`jCache.GetJobMaybeExpired` /
`db.PutJob`), modelled as a lookup function from job id. -/
abbrev JobStore := Nat → Option Job

/-- Store a job under its id. -/
def putJob (store : JobStore) (j : Job) : JobStore :=
  fun id => if id = j.id then some j else store id

/-- `jobFinished`: mark the job as finished (now); it is an error to call it
on a job whose status is not terminal. -/
def jobFinished (j : Job) (now : ℚ) : Except String Job :=
  if ¬ j.done then .error "jobFinished called on Job with non-terminal status"
  else .ok { j with finished := some now }

/-- `CancelJob(id)`: cancel the given job if it is not already finished.
Fetches the job, rejects finished jobs, sets the status to canceled, stamps
the finish time and writes the job back, returning the updated job and
store. -/
def CancelJob (store : JobStore) (now : ℚ) (id : Nat) :
    Except String (Job × JobStore) :=
  match store id with
  | none => .error "No such job"
  | some j =>
    if j.done then .error "Job is already finished"
    else
      let j := { j with status := JobStatus.canceled }
      match jobFinished j now with
      | .error e => .error e
      | .ok j => .ok (j, putJob store j)

/-! ## Concrete instances used by the examples and counterexamples -/

/-- A linear-history commit: hash `i`, parent `i - 1` (the root has none),
all timestamps zero. -/
def chainCommit (i : Nat) : Commit := ⟨i, if i ≤ 1 then [] else [i - 1], 0⟩

/-- A linear history of `n` commits, tip (hash `n`) first. -/
def linChain : Nat → List Commit
  | 0 => []
  | n + 1 => chainCommit (n + 1) :: linChain n

/-- The task cache with no tasks. -/
def emptyCache : Nat → Option Task := fun _ => none

/-- No newly-added task specs. -/
def noNewTasks : Nat → Bool := fun _ => false

/-- A prior failed task at commit `1` covering exactly `[1]`. -/
def retryPrevTask : Task := ⟨7, 1, [1], .failure, 0, none, none⟩

/-- A cache holding `retryPrevTask` as the task covering commit `1`. -/
def retryCache : Nat → Option Task :=
  fun h => if h = 1 then some retryPrevTask else none

/-- A cache holding a successful task at commit `2` covering exactly `[2]`. -/
def bisectCache : Nat → Option Task :=
  fun h => if h = 2 then some (⟨31, 2, [2], .success, 0, none, none⟩ : Task) else none

/-- Scheduler state over one repo (name `0`) with a single-commit history,
everything inside the window and no time decay. -/
def oneCommitSched : SchedState :=
  { repos := (fun r => if r = 0 then some (linChain 1) else none)
    windowTestTime := fun _ _ => true
    newTasks := fun _ _ _ => false
    timeDecayAmt24Hr := 1 }

/-- The same scheduler state with every timestamp outside the window. -/
def noWindowSched : SchedState :=
  { oneCommitSched with windowTestTime := fun _ _ => false }

/-- An ordinary (non-try, non-force) candidate for task spec `3` at commit
`1` of repo `0`. -/
def baseCand : TaskCandidate :=
  { name := 3, repo := 0, revision := 1, forcedJobId := none, isTryJob := false
    attempt := 0, retryOf := none, jobCreated := 0, commits := [], stealingFromId := none
    parentTaskIds := [], isolatedHashes := [], score := 0
    spec := { dimensions := ["os:linux"], maxAttempts := 5 } }

/-- The same candidate as a retry of task `7`. -/
def retryCand : TaskCandidate := { baseCand with attempt := 1, retryOf := some 7 }

/-- Expected result of processing `retryCand`: the stolen blamelist `[1]`
and score `testednessIncrease 1 0 = 2`. -/
def retryOut : TaskCandidate :=
  { retryCand with commits := [1], stealingFromId := some 7, score := 2 }

/-- The same candidate forced by job `9`. -/
def forceCand : TaskCandidate := { baseCand with forcedJobId := some 9 }

/-- Expected result of processing `forceCand` out of window: empty commits
but the force-run score `100`. -/
def forceOut : TaskCandidate := { forceCand with commits := [], score := 100 }

/-- A candidate whose task spec has no dimensions. -/
def noDimCand : TaskCandidate :=
  { baseCand with score := 2, spec := { dimensions := [], maxAttempts := 5 } }

/-- A free bot carrying the dimension `os:linux`. -/
def linuxBot : BotInfo := ⟨11, [⟨"os", ["linux"]⟩]⟩

/-- A succeeded prior task (id `21`) for `baseCand`'s key. -/
def succeededTask : Task := ⟨21, 1, [1], .success, 0, none, none⟩

/-- A later, failed prior task (id `22`, attempt `1`) for `baseCand`'s key. -/
def failedTask : Task := ⟨22, 1, [1], .failure, 1, some 21, none⟩

/-- Filter collaborators: nothing blacklisted, everything in window, the
prior tasks for `baseCand`'s key being `[succeededTask, failedTask]` (sorted
by creation), all dependencies met. -/
def filterEnvEx : FilterEnv :=
  { matchRule := fun _ _ => ""
    windowTestCommitHash := fun _ _ => true
    getTasksByKey := (fun k => if k = baseCand.key then [succeededTask, failedTask] else [])
    allDepsMet := fun _ => some [] }

/-- The same collaborators with the succeeded task being the one and only
(hence most recent) prior task. -/
def filterEnvSuccessLast : FilterEnv :=
  { filterEnvEx with
    getTasksByKey := fun k => if k = baseCand.key then [succeededTask] else [] }

/-- Expected output of filtering `baseCand` against `filterEnvEx`: accepted,
as attempt `2` retrying task `22`. -/
def filterOut : TaskCandidate := { baseCand with attempt := 2, retryOf := some 22 }

/-- Expected result of processing the ordinary `baseCand` out of window:
empty commits and score `testednessIncrease 0 0 = -1`. -/
def outWindowOut : TaskCandidate := { baseCand with commits := [], score := -1 }

/-- An unfinished job (id `4`). -/
def runningJob : Job := ⟨4, .inProgress, none⟩

/-- A store holding only `runningJob`. -/
def jobStoreEx : JobStore := fun id => if id = 4 then some runningJob else none

/-! ## Theorems

Helper lemmas first, then one theorem (plus witness or counterexample) per
claim of the specification. -/

/-- A by-hash lookup returns a commit with the looked-up hash. -/
theorem repoGet_hash {repo : List Commit} {h : Nat} {c : Commit}
    (hc : repoGet repo h = some c) : c.hash = h := by
  have := List.find?_some hc
  simpa using this

/-- `testedness` agrees with the reference `T` on non-negative arguments. -/
theorem testedness_eq_refT (k : Int) (hk : 0 ≤ k) : testedness k = refT k := by
  unfold testedness refT
  rw [if_neg (not_lt.mpr hk)]

/-- On positive arguments, `testedness k = 2 - 1/k`. -/
theorem testedness_two_sub (k : Int) (hk : 0 < k) :
    testedness k = 2 - 1 / (k : ℚ) := by
  unfold testedness
  rw [if_neg (not_lt.mpr hk.le), if_neg (by omega : ¬ k = 0)]
  by_cases h1 : k = 1
  · rw [if_pos h1, h1]
    norm_num
  · rw [if_neg h1]
    have hk0 : (k : ℚ) ≠ 0 := Int.cast_ne_zero.mpr (by omega)
    field_simp
    ring

/-- C2: on the claim's stated domain (`m = 0` or `0 < n ≤ m`), the
implementation's `testednessIncrease` coincides with the reference
definition assembled from the spec's words. -/
theorem c2_testedness_increase_matches_ref (n m : Int)
    (h : m = 0 ∨ (0 < n ∧ n ≤ m)) :
    testednessIncrease n m = testednessIncreaseRef n m := by
  unfold testednessIncrease testednessIncreaseRef
  by_cases h1 : n ≤ 0 ∨ m < 0
  · rw [if_pos h1, if_pos h1]
  · rw [if_neg h1, if_neg h1]
    push_neg at h1
    obtain ⟨hn, hm⟩ := h1
    by_cases h2 : m = 0
    · rw [if_pos h2, if_pos h2, testedness_eq_refT n (by omega)]
      ring
    · rw [if_neg h2, if_neg h2]
      by_cases h3 : n = m
      · rw [if_pos h3, if_pos h3]
      · rw [if_neg h3, if_neg h3]
        have hnm : n ≤ m := by
          rcases h with h | h
          · exact absurd h h2
          · exact h.2
        rw [testedness_eq_refT n (by omega), testedness_eq_refT (m - n) (by omega),
          testedness_eq_refT m (by omega)]

/-- C2 witness: the equality instantiated at `n = 2`, `m = 5`. -/
theorem c2_testedness_increase_matches_ref_witness :
    ((5 : Int) = 0 ∨ ((0 : Int) < 2 ∧ (2 : Int) ≤ 5)) ∧
      testednessIncrease 2 5 = testednessIncreaseRef 2 5 :=
  ⟨Or.inr (by norm_num), c2_testedness_increase_matches_ref 2 5 (Or.inr (by norm_num))⟩

/-- C6: the bisect law — for `0 < n < m` the testedness increase is
non-negative. -/
theorem c6_bisect_law (n m : Int) (h1 : 0 < n) (h2 : n < m) :
    0 ≤ testednessIncrease n m := by
  unfold testednessIncrease
  rw [if_neg (by omega : ¬ (n ≤ 0 ∨ m < 0)), if_neg (by omega : ¬ m = 0),
    if_neg (by omega : ¬ n = m)]
  rw [testedness_two_sub n h1, testedness_two_sub (m - n) (by omega),
    testedness_two_sub m (by omega)]
  have hn1 : (1 : ℚ) ≤ (n : ℚ) := by exact_mod_cast h1
  have hd1 : (1 : ℚ) ≤ ((m - n : Int) : ℚ) := by exact_mod_cast (by omega : (1 : Int) ≤ m - n)
  have hm0 : (0 : ℚ) < (m : ℚ) := by exact_mod_cast (by omega : (0 : Int) < m)
  have ha : 1 / (n : ℚ) ≤ 1 := by
    rw [div_le_one (by linarith)]
    exact hn1
  have hb : 1 / ((m - n : Int) : ℚ) ≤ 1 := by
    rw [div_le_one (by linarith)]
    exact hd1
  have hc : 0 ≤ 1 / (m : ℚ) := by positivity
  linarith

/-- C6 witness: the bisect law instantiated at `n = 2`, `m = 5`. -/
theorem c6_bisect_law_witness :
    ((0 : Int) < 2 ∧ (2 : Int) < 5) ∧ 0 ≤ testednessIncrease 2 5 :=
  ⟨by norm_num, c6_bisect_law 2 5 (by norm_num) (by norm_num)⟩

/-- C8 counterexample: the claimed score `T(5) + 5 = 5.8` is wrong —
`testednessIncrease 5 0` is not `5.8 = 29/5`. -/
theorem c8_fresh_history_counterexample : testednessIncrease 5 0 ≠ 29 / 5 := by
  norm_num [testednessIncrease, testedness]

/-- C8 amended: on a fresh linear history of five commits with no prior
tasks, the blamelist is all five commits `[c5, c4, c3, c2, c1]`, and the
(undecayed) score is `testednessIncrease 5 0 = T(5) + 5 = 6.8 = 34/5`. -/
theorem c8_fresh_history_amended :
    ComputeBlamelist emptyCache (linChain 5) noNewTasks 5 = .ok ([5, 4, 3, 2, 1], none) ∧
      testednessIncrease 5 0 = 34 / 5 := by
  constructor
  · rfl
  · norm_num [testednessIncrease, testedness]

/-- A successful hash resolution returns commits whose hashes are exactly the
input hashes, in order. -/
theorem resolveCommits_map_hash {repo : List Commit} :
    ∀ {hs : List Nat} {cs : List Commit},
      resolveCommits repo hs = .ok cs → cs.map Commit.hash = hs := by
  intro hs
  induction hs with
  | nil =>
    intro cs h
    simp only [resolveCommits] at h
    cases h
    rfl
  | cons a t ih =>
    intro cs h
    simp only [resolveCommits] at h
    cases hget : repoGet repo a with
    | none =>
      rw [hget] at h
      simp at h
    | some c =>
      rw [hget] at h
      dsimp only at h
      cases hrec : resolveCommits repo t with
      | error e =>
        rw [hrec] at h
        simp at h
      | ok cs' =>
        rw [hrec] at h
        dsimp only at h
        cases h
        simp [ih hrec, repoGet_hash hget]

/-- Complete case analysis of one traversal-closure invocation: it either
fails, cuts the blamelist off to `[revision]`, steals a whole previous
blamelist verbatim (only with an empty buffer, for a previous task at
`revision` itself), prunes with the state unchanged, or appends the current
commit — and an append only happens when the buffer is within the size
bound. -/
theorem blamelistStep_cases (cache : Nat → Option Task) (repo : List Commit)
    (newTask : Nat → Bool) (revision c : Commit) (st : BlState) :
    (∃ e, blamelistStep cache repo newTask revision c st = .fail e) ∨
    blamelistStep cache repo newTask revision c st = .final ⟨[revision], st.stealFrom⟩ ∨
    (∃ p cs, cache c.hash = some p ∧ st.buf = [] ∧ p.revision = revision.hash ∧
      resolveCommits repo p.commits = .ok cs ∧
      blamelistStep cache repo newTask revision c st = .final ⟨cs, some p⟩) ∨
    blamelistStep cache repo newTask revision c st = .prune st ∨
    (∃ sf, st.buf.length ≤ MAX_BLAMELIST_COMMITS ∧
      (blamelistStep cache repo newTask revision c st = .prune ⟨st.buf ++ [c], sf⟩ ∨
       blamelistStep cache repo newTask revision c st = .deeper ⟨st.buf ++ [c], sf⟩)) := by
  simp only [blamelistStep, blamelistPush]
  by_cases hlen : st.buf.length > MAX_BLAMELIST_COMMITS
  · rw [if_pos hlen]
    exact Or.inr (Or.inl rfl)
  · rw [if_neg hlen]
    push_neg at hlen
    cases hc : cache c.hash with
    | none =>
      dsimp only
      by_cases hsf : st.stealFrom.isSome
      · rw [if_pos hsf]
        exact Or.inr (Or.inr (Or.inr (Or.inl rfl)))
      · rw [if_neg hsf]
        refine Or.inr (Or.inr (Or.inr (Or.inr ⟨st.stealFrom, hlen, ?_⟩)))
        by_cases hnt : newTask c.hash
        · rw [if_pos hnt]; exact Or.inl rfl
        · rw [if_neg hnt]; exact Or.inr rfl
    | some p =>
      dsimp only
      by_cases hbuf : st.buf = []
      · rw [if_pos hbuf]
        by_cases hrev : p.revision = revision.hash
        · rw [if_pos hrev]
          cases hres : resolveCommits repo p.commits with
          | error e =>
            dsimp only
            exact Or.inl ⟨e, rfl⟩
          | ok cs =>
            dsimp only
            exact Or.inr (Or.inr (Or.inl ⟨p, cs, rfl, hbuf, hrev, hres, rfl⟩))
        · rw [if_neg hrev]
          refine Or.inr (Or.inr (Or.inr (Or.inr ⟨some p, hlen, ?_⟩)))
          by_cases hnt : newTask c.hash
          · rw [if_pos hnt]; exact Or.inl rfl
          · rw [if_neg hnt]; exact Or.inr rfl
      · rw [if_neg hbuf]
        cases hsf : st.stealFrom with
        | none =>
          dsimp only
          exact Or.inr (Or.inr (Or.inr (Or.inl rfl)))
        | some sf0 =>
          dsimp only
          by_cases hid : p.id ≠ sf0.id
          · rw [if_pos hid]
            exact Or.inr (Or.inr (Or.inr (Or.inl rfl)))
          · rw [if_neg hid]
            refine Or.inr (Or.inr (Or.inr (Or.inr ⟨some sf0, hlen, ?_⟩)))
            by_cases hnt : newTask c.hash
            · rw [if_pos hnt]; exact Or.inl rfl
            · rw [if_neg hnt]; exact Or.inr rfl

/-- Size invariant of the traversal loop: if every cached blamelist is within
`MAX_BLAMELIST_COMMITS + 1` and the buffer is too, any successful result is
within `MAX_BLAMELIST_COMMITS + 1`. -/
theorem blamelistLoop_length_le {cache : Nat → Option Task} {repo : List Commit}
    {newTask : Nat → Bool} {revision : Commit}
    (hcache : ∀ h t, cache h = some t → t.commits.length ≤ MAX_BLAMELIST_COMMITS + 1) :
    ∀ fuel stack visited st cs sf,
      st.buf.length ≤ MAX_BLAMELIST_COMMITS + 1 →
      blamelistLoop cache repo newTask revision fuel stack visited st = .ok (cs, sf) →
      cs.length ≤ MAX_BLAMELIST_COMMITS + 1 := by
  intro fuel
  induction fuel with
  | zero =>
    intro stack visited st cs sf _ h
    cases h
  | succ n ih =>
    intro stack visited st cs sf hb h
    cases stack with
    | nil =>
      simp only [blamelistLoop] at h
      cases h
      exact hb
    | cons hd rest =>
      simp only [blamelistLoop] at h
      by_cases hv : hd ∈ visited
      · rw [if_pos hv] at h
        exact ih rest visited st cs sf hb h
      · rw [if_neg hv] at h
        cases hg : repoGet repo hd with
        | none =>
          rw [hg] at h
          simp at h
        | some c =>
          rw [hg] at h
          dsimp only at h
          rcases blamelistStep_cases cache repo newTask revision c st with
            ⟨e, hstep⟩ | hstep | ⟨p, cs0, hp, _, _, hres, hstep⟩ | hstep |
            ⟨sf0, hle, hstep | hstep⟩
          · rw [hstep] at h
            simp at h
          · rw [hstep] at h
            dsimp only at h
            cases h
            simp [MAX_BLAMELIST_COMMITS]
          · rw [hstep] at h
            dsimp only at h
            cases h
            have hlen2 : cs.length = p.commits.length := by
              have hmap := resolveCommits_map_hash hres
              calc cs.length = (cs.map Commit.hash).length := (List.length_map _ _).symm
                _ = p.commits.length := by rw [hmap]
            rw [hlen2]
            exact hcache _ _ hp
          · rw [hstep] at h
            dsimp only at h
            exact ih rest (hd :: visited) st cs sf hb h
          · rw [hstep] at h
            dsimp only at h
            refine ih rest (hd :: visited) _ cs sf ?_ h
            simpa using Nat.succ_le_succ hle
          · rw [hstep] at h
            dsimp only at h
            refine ih (c.parents ++ rest) (hd :: visited) _ cs sf ?_ h
            simpa using Nat.succ_le_succ hle

/-- Self-inclusion invariant of the traversal loop: once the buffer contains
the requested revision's hash, any successful result contains it. -/
theorem blamelistLoop_mem_rev {cache : Nat → Option Task} {repo : List Commit}
    {newTask : Nat → Bool} {revision : Commit} :
    ∀ fuel stack visited st cs sf,
      revision.hash ∈ st.buf.map Commit.hash →
      blamelistLoop cache repo newTask revision fuel stack visited st = .ok (cs, sf) →
      revision.hash ∈ cs.map Commit.hash := by
  intro fuel
  induction fuel with
  | zero =>
    intro stack visited st cs sf _ h
    cases h
  | succ n ih =>
    intro stack visited st cs sf hb h
    cases stack with
    | nil =>
      simp only [blamelistLoop] at h
      cases h
      exact hb
    | cons hd rest =>
      simp only [blamelistLoop] at h
      by_cases hv : hd ∈ visited
      · rw [if_pos hv] at h
        exact ih rest visited st cs sf hb h
      · rw [if_neg hv] at h
        cases hg : repoGet repo hd with
        | none =>
          rw [hg] at h
          simp at h
        | some c =>
          rw [hg] at h
          dsimp only at h
          rcases blamelistStep_cases cache repo newTask revision c st with
            ⟨e, hstep⟩ | hstep | ⟨p, cs0, hp, hbuf, _, _, hstep⟩ | hstep |
            ⟨sf0, _, hstep | hstep⟩
          · rw [hstep] at h
            simp at h
          · rw [hstep] at h
            dsimp only at h
            cases h
            simp
          · rw [hbuf] at hb
            simp at hb
          · rw [hstep] at h
            dsimp only at h
            exact ih rest (hd :: visited) st cs sf hb h
          · rw [hstep] at h
            dsimp only at h
            refine ih rest (hd :: visited) _ cs sf ?_ h
            simp only [List.map_append, List.mem_append]
            exact Or.inl hb
          · rw [hstep] at h
            dsimp only at h
            refine ih (c.parents ++ rest) (hd :: visited) _ cs sf ?_ h
            simp only [List.map_append, List.mem_append]
            exact Or.inl hb

/-- The linear history of `n` commits has `n` commits. -/
theorem linChain_length (n : Nat) : (linChain n).length = n := by
  induction n with
  | zero => rfl
  | succ k ih => simp [linChain, ih]

/-- Looking up hash `m` (with `1 ≤ m ≤ N`) in the `N`-commit linear history
yields the `m`-th chain commit. -/
theorem repoGet_linChain (N : Nat) :
    ∀ m, 1 ≤ m → m ≤ N → repoGet (linChain N) m = some (chainCommit m) := by
  induction N with
  | zero =>
    intro m h1 h2
    omega
  | succ k ih =>
    intro m h1 h2
    by_cases hm : m = k + 1
    · subst hm
      show repoGet (chainCommit (k + 1) :: linChain k) (k + 1) = _
      unfold repoGet
      rw [List.find?_cons_of_pos]
      simp [chainCommit]
    · show repoGet (chainCommit (k + 1) :: linChain k) m = _
      unfold repoGet
      rw [List.find?_cons_of_neg]
      · exact ih m h1 (by omega)
      · simp [chainCommit]
        omega

/-- Traversing the linear history with an empty cache accumulates the whole
chain below the starting commit (as long as the size guard stays quiet). -/
theorem blamelistLoop_linChain (N : Nat) (revision : Commit) :
    ∀ m fuel (visited : List Nat) (buf : List Commit),
      1 ≤ m → m ≤ N →
      buf.length + m ≤ MAX_BLAMELIST_COMMITS + 1 →
      (∀ j, 1 ≤ j → j ≤ m → j ∉ visited) →
      m + 1 ≤ fuel →
      blamelistLoop emptyCache (linChain N) noNewTasks revision fuel [m] visited ⟨buf, none⟩ =
        .ok (buf ++ linChain m, none) := by
  intro m
  induction m with
  | zero =>
    intro fuel visited buf h1
    exact absurd h1 (by omega)
  | succ k ih =>
    intro fuel visited buf h1 h2 h3 hvis hf
    obtain ⟨f, rfl⟩ : ∃ f, fuel = f + 1 := ⟨fuel - 1, by omega⟩
    have hguard : ¬ (buf.length > MAX_BLAMELIST_COMMITS) := by
      simp only [MAX_BLAMELIST_COMMITS] at h3 ⊢
      omega
    have hstep : blamelistStep emptyCache (linChain N) noNewTasks revision
        (chainCommit (k + 1)) ⟨buf, none⟩ =
        .deeper ⟨buf ++ [chainCommit (k + 1)], none⟩ := by
      simp only [blamelistStep, blamelistPush, emptyCache, noNewTasks]
      rw [if_neg hguard]
      simp
    simp only [blamelistLoop]
    rw [if_neg (hvis (k + 1) (by omega) (by omega))]
    rw [repoGet_linChain N (k + 1) (by omega) h2]
    dsimp only
    rw [hstep]
    dsimp only
    cases k with
    | zero =>
      have hpar : (chainCommit 1).parents = [] := by simp [chainCommit]
      rw [hpar]
      obtain ⟨f2, rfl⟩ : ∃ f2, f = f2 + 1 := ⟨f - 1, by omega⟩
      simp only [blamelistLoop, List.nil_append]
      simp [linChain]
    | succ k2 =>
      have hpar : (chainCommit (k2 + 1 + 1)).parents = [k2 + 1] := by
        simp [chainCommit]
      rw [hpar]
      rw [List.cons_append, List.nil_append]
      rw [ih f ((k2 + 1 + 1) :: visited) (buf ++ [chainCommit (k2 + 1 + 1)])
        (by omega) (by omega)
        (by simp only [List.length_append, List.length_cons, List.length_nil] at h3 ⊢; omega)
        (by
          intro j hj1 hj2
          simp only [List.mem_cons, not_or]
          exact ⟨by omega, hvis j hj1 (by omega)⟩)
        (by omega)]
      simp [linChain, List.append_assoc]

/-- The error equation of `blamelistFinish`. -/
theorem blamelistFinish_error (e : String) :
    blamelistFinish (.error e) = .error e := rfl

/-- The success equation of `blamelistFinish`. -/
theorem blamelistFinish_ok (buf : List Commit) (sf : Option Task) :
    blamelistFinish (.ok (buf, sf)) = .ok (buf.map Commit.hash, sf) := rfl

/-- The defining equation of `ComputeBlamelist` when the starting revision
resolves, stated generically so that rewriting with it at concrete arguments
never asks the kernel to evaluate the traversal. -/
theorem ComputeBlamelist_eq_some (cache : Nat → Option Task) (repo : List Commit)
    (newTask : Nat → Bool) (revHash : Nat) (revision : Commit)
    (hg : repoGet repo revHash = some revision) :
    ComputeBlamelist cache repo newTask revHash =
      blamelistFinish
        (blamelistLoop cache repo newTask revision (blFuel repo) [revHash] [] ⟨[], none⟩) := by
  unfold ComputeBlamelist
  rw [hg]

/-- C3 counterexample: on a fresh linear history of `501` commits with an
empty cache, `ComputeBlamelist` returns all `501` commits — strictly more
than `MAX_BLAMELIST_COMMITS` — instead of being bounded by `500` or cut off
to the single revision. -/
theorem c3_blamelist_bound_counterexample :
    ComputeBlamelist emptyCache (linChain 501) noNewTasks 501 =
      .ok ((linChain 501).map Commit.hash, none) ∧
      MAX_BLAMELIST_COMMITS < ((linChain 501).map Commit.hash).length := by
  constructor
  · rw [ComputeBlamelist_eq_some emptyCache (linChain 501) noNewTasks 501 (chainCommit 501)
      (repoGet_linChain 501 501 (by omega) (by omega))]
    rw [blamelistLoop_linChain 501 (chainCommit 501) 501 (blFuel (linChain 501)) [] []
      (by omega) (by omega)
      (by simp [MAX_BLAMELIST_COMMITS])
      (by simp)
      (by
        have hlen := linChain_length 501
        simp only [blFuel, hlen]
        omega)]
    rw [blamelistFinish_ok, List.nil_append]
  · rw [List.length_map, linChain_length]
    simp [MAX_BLAMELIST_COMMITS]

/-- C3 amended: provided every cached blamelist is within
`MAX_BLAMELIST_COMMITS + 1` commits, every successful `ComputeBlamelist`
result is within `MAX_BLAMELIST_COMMITS + 1` commits (the cutoff to the
single revision fires only once strictly more than `MAX_BLAMELIST_COMMITS`
commits have been accumulated, so the tight bound is `501`, not the claimed
`500`). -/
theorem c3_blamelist_bound_amended {cache : Nat → Option Task}
    {repo : List Commit} {newTask : Nat → Bool} {revHash : Nat}
    {cs : List Nat} {sf : Option Task}
    (hcache : ∀ h t, cache h = some t → t.commits.length ≤ MAX_BLAMELIST_COMMITS + 1)
    (h : ComputeBlamelist cache repo newTask revHash = .ok (cs, sf)) :
    cs.length ≤ MAX_BLAMELIST_COMMITS + 1 := by
  unfold ComputeBlamelist at h
  cases hg : repoGet repo revHash with
  | none =>
    rw [hg] at h
    simp at h
  | some revision =>
    rw [hg] at h
    dsimp only at h
    cases hloop : blamelistLoop cache repo newTask revision (blFuel repo) [revHash] []
        ⟨[], none⟩ with
    | error e =>
      rw [hloop, blamelistFinish_error] at h
      simp at h
    | ok pr =>
      obtain ⟨buf, sf0⟩ := pr
      rw [hloop, blamelistFinish_ok] at h
      cases h
      rw [List.length_map]
      exact blamelistLoop_length_le hcache (blFuel repo) [revHash] [] ⟨[], none⟩ buf sf
        (by simp) hloop

/-- C3 amended, witness: a one-commit history with an empty cache. -/
theorem c3_blamelist_bound_amended_witness :
    (ComputeBlamelist emptyCache (linChain 1) noNewTasks 1 = .ok ([1], none)) ∧
      ([1] : List Nat).length ≤ MAX_BLAMELIST_COMMITS + 1 := by
  have hcb : ComputeBlamelist emptyCache (linChain 1) noNewTasks 1 = .ok ([1], none) := by
    rfl
  have hc : ∀ h t, emptyCache h = some t →
      t.commits.length ≤ MAX_BLAMELIST_COMMITS + 1 := by
    intro h t ht
    simp [emptyCache] at ht
  exact ⟨hcb, c3_blamelist_bound_amended hc hcb⟩

/-- C4: whenever every cached task with a non-empty blamelist contains its own
revision in that blamelist, a non-empty `ComputeBlamelist` result contains
the requested revision. -/
theorem c4_self_inclusion {cache : Nat → Option Task} {repo : List Commit}
    {newTask : Nat → Bool} {revHash : Nat} {cs : List Nat} {sf : Option Task}
    (hcache : ∀ h t, cache h = some t → t.commits ≠ [] → t.revision ∈ t.commits)
    (h : ComputeBlamelist cache repo newTask revHash = .ok (cs, sf))
    (hne : cs ≠ []) :
    revHash ∈ cs := by
  unfold ComputeBlamelist at h
  cases hg : repoGet repo revHash with
  | none =>
    rw [hg] at h
    simp at h
  | some revision =>
    have hrev : revision.hash = revHash := repoGet_hash hg
    rw [hg] at h
    dsimp only at h
    cases hloop : blamelistLoop cache repo newTask revision (blFuel repo) [revHash] []
        ⟨[], none⟩ with
    | error e =>
      rw [hloop, blamelistFinish_error] at h
      simp at h
    | ok pr =>
      obtain ⟨buf, sf0⟩ := pr
      rw [hloop, blamelistFinish_ok] at h
      cases h
      have hFpos : 1 ≤ blFuel repo := by
        simp only [blFuel]
        omega
      obtain ⟨f, hf⟩ : ∃ f, blFuel repo = f + 1 := ⟨blFuel repo - 1, by omega⟩
      rw [hf] at hloop
      simp only [blamelistLoop] at hloop
      rw [if_neg (List.not_mem_nil revHash)] at hloop
      rw [hg] at hloop
      dsimp only at hloop
      rcases blamelistStep_cases cache repo newTask revision revision ⟨[], none⟩ with
        ⟨e, hstep⟩ | hstep | ⟨p, cs0, hp, _, hprev, hres, hstep⟩ | hstep |
        ⟨sf1, _, hstep | hstep⟩
      · rw [hstep] at hloop
        simp at hloop
      · rw [hstep] at hloop
        dsimp only at hloop
        cases hloop
        simp [hrev]
      · rw [hstep] at hloop
        dsimp only at hloop
        cases hloop
        have hmap := resolveCommits_map_hash hres
        rw [hmap] at hne ⊢
        have := hcache revision.hash p hp hne
        rw [hprev] at this
        rw [hrev] at this
        exact this
      · rw [hstep] at hloop
        dsimp only at hloop
        cases f with
        | zero => cases hloop
        | succ f2 =>
          simp only [blamelistLoop] at hloop
          cases hloop
          simp at hne
      · rw [hstep] at hloop
        dsimp only at hloop
        have hmem := blamelistLoop_mem_rev f [] (revHash :: []) ⟨[] ++ [revision], sf1⟩
          buf sf (by simp) hloop
        rw [hrev] at hmem
        exact hmem
      · rw [hstep] at hloop
        dsimp only at hloop
        have hmem := blamelistLoop_mem_rev f (revision.parents ++ []) (revHash :: [])
          ⟨[] ++ [revision], sf1⟩ buf sf (by simp) hloop
        rw [hrev] at hmem
        exact hmem

/-- C4 witness: a three-commit linear history with a prior task at commit
`2`; the blamelist of the candidate at commit `3` is `[3]`, which contains
the requested revision. -/
theorem c4_self_inclusion_witness :
    (ComputeBlamelist bisectCache (linChain 3) noNewTasks 3 = .ok ([3], none)) ∧
      (3 : Nat) ∈ [3] := by
  have hcache : ∀ h t, bisectCache h = some t → t.commits ≠ [] → t.revision ∈ t.commits := by
    intro h t ht
    by_cases h2 : h = 2
    · simp only [bisectCache, if_pos h2] at ht
      cases ht
      simp
    · simp [bisectCache, h2] at ht
  have hcb : ComputeBlamelist bisectCache (linChain 3) noNewTasks 3 = .ok ([3], none) := by
    rfl
  exact ⟨hcb, c4_self_inclusion hcache hcb (by simp)⟩

/-- Membership in a score-ordered insertion. -/
theorem mem_insertByScore {c x : TaskCandidate} {l : List TaskCandidate} :
    x ∈ insertByScore c l ↔ x = c ∨ x ∈ l := by
  induction l with
  | nil => simp [insertByScore]
  | cons d t ih =>
    simp only [insertByScore]
    by_cases hs : d.score < c.score
    · rw [if_pos hs]
      simp [List.mem_cons]
    · rw [if_neg hs]
      simp only [List.mem_cons, ih]
      tauto

/-- The final score sort does not change membership. -/
theorem mem_sortByScore {x : TaskCandidate} {l : List TaskCandidate} :
    x ∈ sortByScore l ↔ x ∈ l := by
  induction l with
  | nil => simp [sortByScore]
  | cons d t ih =>
    show x ∈ insertByScore d (sortByScore t) ↔ _
    rw [mem_insertByScore]
    simp [ih]

/-- Every candidate the matching loop emits (beyond the accumulator) has a
positive score and a non-empty dimension list. -/
theorem mem_matchBotsLoop {x : TaskCandidate} :
    ∀ (tasks : List TaskCandidate) (m : BotsByDim) (rv : List TaskCandidate),
      x ∈ matchBotsLoop m tasks rv →
      x ∈ rv ∨ (0 < x.score ∧ x.spec.dimensions ≠ []) := by
  intro tasks
  induction tasks with
  | nil =>
    intro m rv h
    exact Or.inl h
  | cons c rest ih =>
    intro m rv h
    simp only [matchBotsLoop] at h
    by_cases hs : c.score ≤ 0
    · rw [if_pos hs] at h
      exact ih m rv h
    · rw [if_neg hs] at h
      by_cases hm : computeMatches m c.spec.dimensions = []
      · rw [if_pos hm] at h
        exact ih m rv h
      · rw [if_neg hm] at h
        have hdim : c.spec.dimensions ≠ [] := by
          intro hd
          apply hm
          rw [hd]
          rfl
        by_cases hempty :
            removeBot m (leastBot (computeMatches m c.spec.dimensions)) = []
        · rw [if_pos hempty] at h
          rcases List.mem_append.mp h with h1 | h1
          · exact Or.inl h1
          · have hx : x = c := by simpa using h1
            subst hx
            exact Or.inr ⟨lt_of_not_le hs, hdim⟩
        · rw [if_neg hempty] at h
          rcases ih _ _ h with h1 | h1
          · rcases List.mem_append.mp h1 with h2 | h2
            · exact Or.inl h2
            · have hx : x = c := by simpa using h2
              subst hx
              exact Or.inr ⟨lt_of_not_le hs, hdim⟩
          · exact Or.inr h1

/-- Every candidate emitted by `getCandidatesToSchedule` has a positive score
and a non-empty dimension list. -/
theorem mem_getCandidatesToSchedule {bots : List BotInfo}
    {tasks : List TaskCandidate} {x : TaskCandidate}
    (h : x ∈ getCandidatesToSchedule bots tasks) :
    0 < x.score ∧ x.spec.dimensions ≠ [] := by
  unfold getCandidatesToSchedule at h
  rw [mem_sortByScore] at h
  rcases mem_matchBotsLoop tasks (buildBotsByDim bots) [] h with h1 | h1
  · simp at h1
  · exact h1

/-- The time-decay multiplier is never negative. -/
theorem timeDecayForCommit_nonneg (s : SchedState) (now : ℚ) (commit : Commit) :
    0 ≤ timeDecayForCommit s now commit := by
  unfold timeDecayForCommit timeDecay24Hr
  split
  · norm_num
  · exact le_max_right _ _

/-- C10: a candidate whose task spec has an empty dimension list is never
selected by `getCandidatesToSchedule` — the per-dimension intersection starts
from the empty bot set. -/
theorem c10_empty_dimensions (bots : List BotInfo) (tasks : List TaskCandidate)
    (c : TaskCandidate) (hdim : c.spec.dimensions = []) :
    c ∉ getCandidatesToSchedule bots tasks := by
  intro hmem
  exact (mem_getCandidatesToSchedule hmem).2 hdim

/-- C10 witness: the no-dimension candidate is not selected even with a free
bot available. -/
theorem c10_empty_dimensions_witness :
    noDimCand.spec.dimensions = [] ∧
      noDimCand ∉ getCandidatesToSchedule [linuxBot] [noDimCand] :=
  ⟨rfl, c10_empty_dimensions [linuxBot] [noDimCand] noDimCand rfl⟩

/-- C1 counterexample: a retry candidate (`RetryOf` set, blamelist stolen
verbatim from the prior task at the same revision) is scored
`testednessIncrease(1, 0) = 2`, not `0` — retries are deliberately treated
as new — and with a matching free bot it is emitted by
`getCandidatesToSchedule`. -/
theorem c1_retry_score_counterexample :
    processTaskCandidate oneCommitSched retryCache retryCand 0 = .ok retryOut ∧
      retryOut.score ≠ 0 ∧
      getCandidatesToSchedule [linuxBot] [retryOut] = [retryOut] := by
  refine ⟨?_, by norm_num [retryOut, retryCand, baseCand], rfl⟩
  have hbl : ComputeBlamelist retryCache (linChain 1) (fun _ => false) 1 =
      .ok ([1], some retryPrevTask) := rfl
  simp [processTaskCandidate, hbl, oneCommitSched, retryCand, baseCand, retryOut,
    retryPrevTask, TaskCandidate.isForceRun, testednessIncrease, testedness,
    timeDecayForCommit, timeDecay24Hr]
  rw [repoGet_linChain 1 1 (by omega) (by omega)]
  norm_num

/-- C1 amended: an ordinary candidate with `RetryOf` set is scored as if it
were new — `testednessIncrease(|commits|, 0)` (the stolen-from blamelist
length is not used), scaled by time decay — so a retry with a non-empty
blamelist and positive decay has a positive score and can be dispatched. -/
theorem c1_retry_score_amended {s : SchedState} {cache : Nat → Option Task}
    {c c' : TaskCandidate} {now : ℚ} {repo : List Commit} {rev : Commit}
    (htry : c.isTryJob = false) (hforce : c.forcedJobId = none)
    (hretry : c.retryOf.isSome)
    (hrepo : s.repos c.repo = some repo) (hrev : repoGet repo c.revision = some rev)
    (h : processTaskCandidate s cache c now = .ok c') :
    c'.score = testednessIncrease c'.commits.length 0 * timeDecayForCommit s now rev := by
  unfold processTaskCandidate at h
  rw [htry] at h
  simp only [Bool.false_eq_true, if_false] at h
  rw [hrepo] at h
  dsimp only at h
  rw [hrev] at h
  dsimp only at h
  split at h
  case h_1 x heq =>
    simp at h
  case h_2 commits stealingFrom heq =>
    simp only [TaskCandidate.isForceRun, hforce, Option.isSome_none,
      Bool.false_eq_true, if_false] at h
    cases h
    cases stealingFrom with
    | none => rfl
    | some sf =>
      simp [hretry]

/-- C1 amended, witness: the concrete retry candidate's score is
`testednessIncrease(1, 0) × decay`. -/
theorem c1_retry_score_amended_witness :
    retryCand.retryOf.isSome = true ∧
      retryOut.score =
        testednessIncrease retryOut.commits.length 0 *
          timeDecayForCommit oneCommitSched 0 (chainCommit 1) := by
  have hbl : ComputeBlamelist retryCache (linChain 1) (fun _ => false) 1 =
      .ok ([1], some retryPrevTask) := rfl
  have hproc : processTaskCandidate oneCommitSched retryCache retryCand 0 = .ok retryOut := by
    simp [processTaskCandidate, hbl, oneCommitSched, retryCand, baseCand, retryOut,
      retryPrevTask, TaskCandidate.isForceRun, testednessIncrease, testedness,
      timeDecayForCommit, timeDecay24Hr]
    rw [repoGet_linChain 1 1 (by omega) (by omega)]
    norm_num
  have h1 : retryCand.isTryJob = false := rfl
  have h2 : retryCand.forcedJobId = none := rfl
  have h3 : retryCand.retryOf.isSome = true := rfl
  have h4 : oneCommitSched.repos retryCand.repo = some (linChain 1) := rfl
  have h5 : repoGet (linChain 1) retryCand.revision = some (chainCommit 1) := rfl
  exact ⟨h3, c1_retry_score_amended h1 h2 h3 h4 h5 hproc⟩

/-- C7 counterexample: a force-run candidate whose revision has scrolled out
of the window does get an empty blamelist, but its score is the force-run
base `100`, not `≤ 0`, and with a matching free bot it is emitted by
`getCandidatesToSchedule`. -/
theorem c7_window_counterexample :
    processTaskCandidate noWindowSched retryCache forceCand 0 = .ok forceOut ∧
      ¬ forceOut.score ≤ 0 ∧
      getCandidatesToSchedule [linuxBot] [forceOut] = [forceOut] := by
  refine ⟨?_, by norm_num [forceOut, forceCand, baseCand, CANDIDATE_SCORE_FORCE_RUN], rfl⟩
  simp [processTaskCandidate, noWindowSched, oneCommitSched, forceCand, baseCand, forceOut,
    TaskCandidate.isForceRun, CANDIDATE_SCORE_FORCE_RUN]
  rw [repoGet_linChain 1 1 (by omega) (by omega)]

/-- C7 amended: an *ordinary* (non-try, non-force) candidate whose revision
has scrolled out of the window gets an empty blamelist and a score `≤ 0`
(`testednessIncrease(0, 0) = -1` times a non-negative decay), and is never
emitted by `getCandidatesToSchedule`. -/
theorem c7_window_amended {s : SchedState} {cache : Nat → Option Task}
    {c c' : TaskCandidate} {now : ℚ} {repo : List Commit} {rev : Commit}
    (htry : c.isTryJob = false) (hforce : c.forcedJobId = none)
    (hrepo : s.repos c.repo = some repo) (hrev : repoGet repo c.revision = some rev)
    (hwin : s.windowTestTime c.repo rev.timestamp = false)
    (h : processTaskCandidate s cache c now = .ok c') :
    c'.commits = [] ∧ c'.score ≤ 0 ∧
      ∀ bots tasks, c' ∉ getCandidatesToSchedule bots tasks := by
  unfold processTaskCandidate at h
  rw [htry] at h
  simp only [Bool.false_eq_true, if_false] at h
  rw [hrepo] at h
  dsimp only at h
  rw [hrev] at h
  dsimp only at h
  rw [hwin] at h
  simp only [Bool.false_eq_true, not_false_iff, if_true] at h
  simp only [TaskCandidate.isForceRun, hforce, Option.isSome_none,
    Bool.false_eq_true, if_false] at h
  cases h
  have hle : testednessIncrease ((List.length ([] : List Nat) : Int)) 0 *
      timeDecayForCommit s now rev ≤ 0 := by
    have hdec := timeDecayForCommit_nonneg s now rev
    have h1 : testednessIncrease ((List.length ([] : List Nat) : Int)) 0 = -1 := by
      norm_num [testednessIncrease]
    rw [h1]
    linarith
  refine ⟨rfl, hle, ?_⟩
  intro bots tasks hmem
  have hpos := (mem_getCandidatesToSchedule hmem).1
  exact absurd hpos (not_lt.mpr hle)

/-- C7 amended, witness: the concrete ordinary candidate processed out of
window has empty commits, score `-1 ≤ 0`, and is never emitted. -/
theorem c7_window_amended_witness :
    noWindowSched.windowTestTime baseCand.repo (chainCommit 1).timestamp = false ∧
      outWindowOut.commits = [] ∧ outWindowOut.score ≤ 0 ∧
      ∀ bots tasks, outWindowOut ∉ getCandidatesToSchedule bots tasks := by
  have hproc : processTaskCandidate noWindowSched retryCache baseCand 0 = .ok outWindowOut := by
    simp [processTaskCandidate, noWindowSched, oneCommitSched, baseCand, outWindowOut,
      TaskCandidate.isForceRun, testednessIncrease, timeDecayForCommit]
    rw [repoGet_linChain 1 1 (by omega) (by omega)]
  have h1 : baseCand.isTryJob = false := rfl
  have h2 : baseCand.forcedJobId = none := rfl
  have h3 : noWindowSched.repos baseCand.repo = some (linChain 1) := rfl
  have h4 : repoGet (linChain 1) baseCand.revision = some (chainCommit 1) := rfl
  have h5 : noWindowSched.windowTestTime baseCand.repo (chainCommit 1).timestamp = false := rfl
  have h := c7_window_amended h1 h2 h3 h4 h5 hproc
  exact ⟨h5, h.1, h.2.1, h.2.2⟩

/-- C5 counterexample: a succeeded prior task exists for the candidate's key,
but because a more recently created (failed) task for the same key follows
it, `filterTaskCandidates` does *not* reject the candidate — it emits it as a
retry of the failed task. -/
theorem c5_filter_prior_counterexample :
    succeededTask ∈ filterEnvEx.getTasksByKey baseCand.key ∧
      succeededTask.success ∧
      filterTaskCandidates filterEnvEx [baseCand] = [filterOut] := by
  refine ⟨?_, rfl, rfl⟩
  simp [filterEnvEx]

/-- C5 amended: `filterTaskCandidates` consults only the most recently
created prior task with the candidate's key; it rejects the candidate
whenever that last task is pending, running, or succeeded. -/
theorem c5_filter_prior_amended {env : FilterEnv} {c : TaskCandidate} {t : Task}
    (hlast : (env.getTasksByKey c.key).getLast? = some t)
    (hstatus : t.status = .pending ∨ t.status = .running ∨ t.status = .success) :
    filterCandidate env c = none := by
  simp only [filterCandidate]
  by_cases h1 : env.matchRule c.name c.revision ≠ ""
  · rw [if_pos h1]
  · rw [if_neg h1]
    by_cases h2 : ¬ env.windowTestCommitHash c.repo c.revision = true
    · rw [if_pos h2]
    · rw [if_neg h2]
      rw [hlast]
      dsimp only
      rcases hstatus with hs | hs | hs
      · rw [if_pos (Or.inl hs)]
      · rw [if_pos (Or.inr hs)]
      · rw [if_neg (by rw [hs]; simp : ¬ (t.status = .pending ∨ t.status = .running))]
        rw [if_pos (show t.success from hs)]

/-- C5 amended, witness: when the one (hence most recent) prior task
succeeded, the candidate is rejected. -/
theorem c5_filter_prior_amended_witness :
    (filterEnvSuccessLast.getTasksByKey baseCand.key).getLast? = some succeededTask ∧
      filterCandidate filterEnvSuccessLast baseCand = none := by
  have hlast : (filterEnvSuccessLast.getTasksByKey baseCand.key).getLast? =
      some succeededTask := rfl
  exact ⟨hlast, c5_filter_prior_amended hlast (Or.inr (Or.inr rfl))⟩

/-- C9 counterexample: cancelling the running job succeeds (status canceled,
finish time stamped), but a second `CancelJob` on the resulting store is
rejected with an error rather than returning the same result. -/
theorem c9_cancel_idempotent_counterexample :
    CancelJob jobStoreEx 10 4 =
      .ok (⟨4, .canceled, some 10⟩, putJob jobStoreEx ⟨4, .canceled, some 10⟩) ∧
      CancelJob (putJob jobStoreEx ⟨4, .canceled, some 10⟩) 11 4 =
        .error "Job is already finished" :=
  ⟨rfl, rfl⟩

/-- C9 amended: `CancelJob` is not idempotent — cancelling an unfinished job
marks it canceled with the finish time stamped, and any further `CancelJob`
on the updated store is rejected as a done-job mutation. -/
theorem c9_cancel_idempotent_amended {store : JobStore} {now now2 : ℚ} {id : Nat}
    {j j2 : Job} {store2 : JobStore}
    (hj : store id = some j) (hid : j.id = id) (hnotdone : j.done = false)
    (h : CancelJob store now id = .ok (j2, store2)) :
    j2.status = .canceled ∧ j2.finished = some now ∧
      CancelJob store2 now2 id = .error "Job is already finished" := by
  unfold CancelJob at h
  rw [hj] at h
  dsimp only at h
  rw [hnotdone] at h
  simp only [Bool.false_eq_true, if_false] at h
  simp only [jobFinished, Job.done] at h
  simp at h
  obtain ⟨hj2, hstore2⟩ := h
  refine ⟨by rw [← hj2], by rw [← hj2], ?_⟩
  unfold CancelJob
  rw [← hstore2]
  have hlookup : putJob store { j with status := JobStatus.canceled, finished := some now } id =
      some { j with status := JobStatus.canceled, finished := some now } := by
    simp [putJob, hid]
  rw [hlookup]
  dsimp only
  simp [Job.done, ← hj2]

/-- C9 amended, witness: the concrete running job. -/
theorem c9_cancel_idempotent_amended_witness :
    ((⟨4, .canceled, some 10⟩ : Job).status = .canceled ∧
      (⟨4, .canceled, some 10⟩ : Job).finished = some 10 ∧
      CancelJob (putJob jobStoreEx ⟨4, .canceled, some 10⟩) 11 4 =
        .error "Job is already finished") := by
  have h1 : jobStoreEx 4 = some runningJob := rfl
  have h2 : runningJob.id = 4 := rfl
  have h3 : runningJob.done = false := rfl
  have h4 : CancelJob jobStoreEx 10 4 =
      .ok (⟨4, .canceled, some 10⟩, putJob jobStoreEx ⟨4, .canceled, some 10⟩) := rfl
  exact c9_cancel_idempotent_amended h1 h2 h3 h4

end Scheduling
